import Mathlib

/-!
Verification development for `tmcp.py`, a recursive copier that copies
files and directories out of a Time Machine backup into a destination
directory.

Shallow embedding: a filesystem is a finite association list from absolute
paths (lists of name components; `os.path.realpath` normalization is
modelled by working directly with canonical component lists) to nodes
(regular files carrying content and a stat value, or directories carrying
a stat value).  A run state also carries a clock (the stat value stamped
on newly created directories, standing for "current time"), the list of
diagnostics printed so far, and a counter of file overwrites performed
(an overwrite replaces the node stored at an already-occupied file path).

Python library calls are modelled by the corresponding state transformers:
`os.mkdir` (fails with FileExistsError on an existing path, and with a
file-not-found style error when the parent is not a directory),
`os.makedirs` (creates missing ancestors top-down, raising ENOTDIR when an
ancestor is a non-directory and EEXIST when the full path already exists),
`shutil.copy2` (when its target is a directory it copies *into* it under
the source's basename; it overwrites an existing target file, and raises
when the final target is a directory), `shutil.copystat` (copies the stat
value onto an existing node), `os.listdir`, `os.path.isfile`,
`os.path.isdir`, `os.path.exists`, `os.path.basename`, `os.path.join`.

Exceptions are modelled by an error result that carries the state at the
point the exception was raised (the filesystem keeps any partial writes),
mirroring how a Python exception propagates out of `tmcp` past the
`for f in src` loop.  Recursion in `_copy` is driven by fuel; `tmcp` run
with enough fuel never hits the artificial `outOfFuel` error.
-/

/-- A path is a list of name components of an absolute path. -/
abbrev FPath := List String

/-- A filesystem node: a regular file (content bytes plus a stat value
standing for timestamps/permissions) or a directory (stat value). -/
inductive Node where
  | file (content : String) (meta : Nat)
  | dir (meta : Nat)
deriving DecidableEq

/-- Diagnostics printed by `tmcp.py` (the `print('x ...')` lines). -/
inductive Diag where
  | srcMissing (p : FPath)
  | destFileExists (p : FPath)
  | destDirExists (p : FPath)
deriving DecidableEq

/-- Errors (Python exceptions) that can propagate out of the engine. -/
inductive Err where
  | fileExists
  | isADirectory
  | fileNotFound
  | notADirectory
  | destConflict
  | badArchive
  | outOfFuel
deriving DecidableEq

/-- Run state: filesystem, clock, diagnostics printed, overwrite count. -/
structure St where
  fs : List (FPath × Node)
  clock : Nat
  diags : List Diag
  overwrites : Nat
deriving DecidableEq

/-- Result of a stateful step: normal return, or a raised exception
together with the state at the raise point. -/
inductive Res where
  | ok (s : St)
  | err (e : Err) (s : St)
deriving DecidableEq

/-- The state carried by a result (partial writes survive an exception). -/
def Res.st : Res → St
  | .ok s => s
  | .err _ s => s

/-- First-match lookup in the filesystem association list. -/
def lookupFS : List (FPath × Node) → FPath → Option Node
  | [], _ => none
  | (q, n) :: rest, p => if q = p then some n else lookupFS rest p

/-- Store a node at a path: replace the first binding, else append. -/
def setFS : List (FPath × Node) → FPath → Node → List (FPath × Node)
  | [], p, n => [(p, n)]
  | (q, m) :: rest, p, n =>
      if q = p then (p, n) :: rest else (q, m) :: setFS rest p n

/-- Model of `os.path.exists`. -/
def existsFS (fs : List (FPath × Node)) (p : FPath) : Bool :=
  (lookupFS fs p).isSome

/-- Model of `os.path.isfile`. -/
def isfile (fs : List (FPath × Node)) (p : FPath) : Bool :=
  match lookupFS fs p with
  | some (Node.file _ _) => true
  | _ => false

/-- Model of `os.path.isdir`. -/
def isdir (fs : List (FPath × Node)) (p : FPath) : Bool :=
  match lookupFS fs p with
  | some (Node.dir _) => true
  | _ => false

/-- The stat value of a node. -/
def Node.meta : Node → Nat
  | .file _ m => m
  | .dir m => m

/-- Replace the stat value of a node, keeping its kind and content. -/
def Node.withMeta : Node → Nat → Node
  | .file c _, m => .file c m
  | .dir _, m => .dir m

/-- Model of `os.path.basename` on a component list. -/
def basename (p : FPath) : String := p.getLastD ""

/-- Is `q` exactly `p ++ [c]` for some single component `c`? -/
def asChild : FPath → FPath → Option String
  | [], [c] => some c
  | a :: p, b :: q => if a = b then asChild p q else none
  | _, _ => none

/-- Model of `os.listdir fs p`: names of the immediate children of `p`, in the
(deterministic) order their bindings appear in the filesystem list. -/
def listdir (fs : List (FPath × Node)) (p : FPath) : List String :=
  fs.filterMap (fun e => asChild p e.1)

/-- Append a diagnostic (a `print` in `tmcp.py`). -/
def addDiag (s : St) (d : Diag) : St :=
  { s with diags := s.diags ++ [d] }

/-- Model of `os.mkdir`: fails on an existing path (FileExistsError) or a missing
or non-directory parent; otherwise creates a directory stamped with the
current clock and ticks the clock. -/
def mkdir (p : FPath) (s : St) : Res :=
  if existsFS s.fs p then Res.err Err.fileExists s
  else if isdir s.fs p.dropLast then
    Res.ok { s with fs := setFS s.fs p (Node.dir s.clock), clock := s.clock + 1 }
  else Res.err Err.fileNotFound s

/-- Model of `shutil.copy2 sp dp`: if `dp` is a directory the copy lands at
`dp/basename(sp)`; the copy carries the source file's content and stat;
an existing target file is overwritten (counted); a target that is a
directory raises; a missing parent raises. -/
def copy2 (sp dp : FPath) (s : St) : Res :=
  let d := if isdir s.fs dp then dp ++ [basename sp] else dp
  match lookupFS s.fs sp with
  | some (Node.file c m) =>
      if isdir s.fs d then Res.err Err.isADirectory s
      else if isfile s.fs d then
        Res.ok { s with fs := setFS s.fs d (Node.file c m),
                        clock := s.clock + 1,
                        overwrites := s.overwrites + 1 }
      else if isdir s.fs d.dropLast then
        Res.ok { s with fs := setFS s.fs d (Node.file c m),
                        clock := s.clock + 1 }
      else Res.err Err.fileNotFound s
  | _ => Res.err Err.fileNotFound s

/-- Model of `shutil.copystat sp dp`: copy the stat value of the node at `sp` onto
the node at `dp`; raises when either is missing. -/
def copystat (sp dp : FPath) (s : St) : Res :=
  match lookupFS s.fs sp, lookupFS s.fs dp with
  | some nsrc, some ndst =>
      Res.ok { s with fs := setFS s.fs dp (ndst.withMeta nsrc.meta) }
  | _, _ => Res.err Err.fileNotFound s

/-- Model of `getOriginal` (tmcp.py line 89): print a skip diagnostic and yield
`None` for a missing source, else pass the path through unchanged.  The
`archive` argument is accepted and ignored, as in the source. -/
def getOriginal (src : FPath) (archive : Option FPath) (s : St) :
    Option FPath × St :=
  if existsFS s.fs src then (some src, s)
  else (none, addDiag s (Diag.srcMissing src))

/-- Model of `_isArchiveDir` (tmcp.py line 95): accepts every path. -/
def isArchiveDir (arch : FPath) : Bool := true

/-- Model of `_findArchive` (tmcp.py line 98): auto-detection yields no archive. -/
def findArchive (src : List FPath) : Option FPath := none

/-- Run a copy action on each child name in order, stopping at the first
raised exception (the `for child in contents` loop in `_copy`). -/
def seqKids (g : FPath → St → Res) (srcdir : FPath) :
    List String → St → Res
  | [], s => Res.ok s
  | c :: rest, s =>
      match g (srcdir ++ [c]) s with
      | Res.ok s2 => seqKids g srcdir rest s2
      | Res.err e s2 => Res.err e s2

/-- Model of `_copy` (tmcp.py lines 64-87), with fuel driving the recursion:
resolve the source (skip if missing); for a regular file, skip with a
diagnostic when the target is a file, else `shutil.copy2`; for a
directory, either note an existing target directory or `os.mkdir` a new
one, list the source's children, recurse into each, and `shutil.copystat`
the source's stat onto the target only when this call created it. -/
def copyF : Nat → FPath → FPath → Option FPath → St → Res
  | 0, _, _, _, s => Res.err Err.outOfFuel s
  | fuel + 1, src, dst, archive, s =>
      match getOriginal src archive s with
      | (none, s1) => Res.ok s1
      | (some rs, s1) =>
          let cn := dst ++ [basename src]
          if isfile s1.fs rs then
            if isfile s1.fs cn then Res.ok (addDiag s1 (Diag.destFileExists cn))
            else copy2 rs cn s1
          else if isdir s1.fs rs then
            match (if isdir s1.fs cn then
                     (Res.ok (addDiag s1 (Diag.destDirExists cn)), false)
                   else (mkdir cn s1, true)) with
            | (Res.ok s2, made) =>
                match seqKids (fun p t => copyF fuel p cn archive t) rs
                        (listdir s2.fs rs) s2 with
                | Res.ok s3 => if made then copystat rs cn s3 else Res.ok s3
                | Res.err e s3 => Res.err e s3
            | (Res.err e s2, _) => Res.err e s2
          else Res.ok s1

/-- Model of `os.makedirs`, walked top-down over the prefixes of the requested
path: an existing directory prefix is entered, an existing non-directory
prefix raises ENOTDIR, a missing prefix is created; the final component
is created unconditionally, raising EEXIST when it already exists. -/
def mkdirsGo : FPath → List String → St → Res
  | cur, [], s =>
      if existsFS s.fs cur then Res.err Err.fileExists s
      else Res.ok { s with fs := setFS s.fs cur (Node.dir s.clock),
                           clock := s.clock + 1 }
  | cur, c :: rest, s =>
      if isdir s.fs cur then mkdirsGo (cur ++ [c]) rest s
      else if existsFS s.fs cur then Res.err Err.notADirectory s
      else mkdirsGo (cur ++ [c]) rest
             { s with fs := setFS s.fs cur (Node.dir s.clock),
                      clock := s.clock + 1 }

/-- Model of `os.makedirs dst`. -/
def makedirs (p : FPath) (s : St) : Res := mkdirsGo [] p s

/-- Model of the `for f in src` loop of `_copy` calls in `tmcp`: sources
are copied in order; an exception raised by one copy propagates and the
remaining sources are not attempted. -/
def foldCopy : List FPath → FPath → Option FPath → Nat → St → Res
  | [], _, _, _, s => Res.ok s
  | f :: rest, dst, arch, fuel, s =>
      match copyF fuel f dst arch s with
      | Res.ok s2 => foldCopy rest dst arch fuel s2
      | Res.err e s2 => Res.err e s2

/-- The archive value `tmcp` threads into the copies: an explicit archive
is kept (its validation always succeeds), otherwise auto-detection. -/
def archiveOf (srcs : List FPath) : Option FPath → Option FPath
  | none => findArchive srcs
  | some a => some a

/-- The body of `tmcp` after archive handling (lines 50-62): create the
destination via `os.makedirs`, letting an EEXIST pass when the
destination is a directory and turning any other failure into the fatal
"Some portion of destination path ... is an existing file" error; then
copy each source in order. -/
def tmcpGo (srcs : List FPath) (dst : FPath) (arch : Option FPath)
    (fuel : Nat) (s : St) : Res :=
  match makedirs dst s with
  | Res.ok s1 => foldCopy srcs dst arch fuel s1
  | Res.err Err.fileExists s1 =>
      if isdir s1.fs dst then foldCopy srcs dst arch fuel s1
      else Res.err Err.destConflict s1
  | Res.err _ s1 => Res.err Err.destConflict s1

/-- Model of `tmcp` (tmcp.py lines 19-62).  FPath normalization by
`os.path.realpath` is the identity on canonical component lists.  A
`None` archive is auto-detected; an explicit archive is validated by
`_isArchiveDir` (which accepts everything). -/
def tmcp (srcs : List FPath) (dst : FPath) (archive : Option FPath)
    (fuel : Nat) (s : St) : Res :=
  match archive with
  | none => tmcpGo srcs dst (findArchive srcs) fuel s
  | some a =>
      if isArchiveDir a then tmcpGo srcs dst (some a) fuel s
      else Res.err Err.badArchive s

/-- Strict extension: `d` is a strict prefix of `p` (every path the copy
engine writes to, when invoked with destination parent `d`, is a strict
extension of `d`). -/
def StrictExt (d p : FPath) : Prop :=
  d.length < p.length ∧ p.take d.length = d

instance (d p : FPath) : Decidable (StrictExt d p) := by
  unfold StrictExt; infer_instance

/-- A well-formed filesystem: every proper prefix of a bound path is
bound to a directory (as on a real filesystem). -/
def wellFormed (fs : List (FPath × Node)) : Bool :=
  fs.all (fun e => (List.range e.1.length).all (fun k => isdir fs (e.1.take k)))

/-! ### Basic lemmas about the filesystem primitives -/

theorem lookupFS_setFS (fs : List (FPath × Node)) (q p : FPath) (n : Node) :
    lookupFS (setFS fs q n) p = if q = p then some n else lookupFS fs p := by
  induction fs with
  | nil => by_cases h : q = p <;> simp [setFS, lookupFS, h]
  | cons e rest ih =>
      obtain ⟨a, b⟩ := e
      by_cases haq : a = q
      · subst haq
        by_cases hap : a = p <;> simp [setFS, lookupFS, hap]
      · by_cases hap : a = p
        · subst hap
          have hqp : ¬ (q = a) := fun h => haq h.symm
          simp [setFS, lookupFS, haq, hqp]
        · simp [setFS, lookupFS, haq, hap, ih]

theorem exists_of_isdir {fs : List (FPath × Node)} {p : FPath}
    (h : isdir fs p = true) : existsFS fs p = true := by
  cases hl : lookupFS fs p with
  | none => simp [isdir, hl] at h
  | some n => simp [existsFS, hl]

theorem exists_of_isfile {fs : List (FPath × Node)} {p : FPath}
    (h : isfile fs p = true) : existsFS fs p = true := by
  cases hl : lookupFS fs p with
  | none => simp [isfile, hl] at h
  | some n => simp [existsFS, hl]

theorem isfile_of_isdir {fs : List (FPath × Node)} {p : FPath}
    (h : isdir fs p = true) : isfile fs p = false := by
  cases hl : lookupFS fs p with
  | none => simp [isdir, hl] at h
  | some n =>
      cases n with
      | file c m => simp [isdir, hl] at h
      | dir m => simp [isfile, hl]

theorem isdir_of_not_exists {fs : List (FPath × Node)} {p : FPath}
    (h : existsFS fs p = false) : isdir fs p = false := by
  cases hl : lookupFS fs p with
  | none => simp [isdir, hl]
  | some n => simp [existsFS, hl] at h

theorem isfile_of_not_exists {fs : List (FPath × Node)} {p : FPath}
    (h : existsFS fs p = false) : isfile fs p = false := by
  cases hl : lookupFS fs p with
  | none => simp [isfile, hl]
  | some n => simp [existsFS, hl] at h

theorem lookup_of_isdir {fs : List (FPath × Node)} {p : FPath}
    (h : isdir fs p = true) : ∃ m, lookupFS fs p = some (Node.dir m) := by
  cases hl : lookupFS fs p with
  | none => simp [isdir, hl] at h
  | some n =>
      cases n with
      | file c m => simp [isdir, hl] at h
      | dir m => exact ⟨m, rfl⟩

theorem lookup_of_isfile {fs : List (FPath × Node)} {p : FPath}
    (h : isfile fs p = true) : ∃ c m, lookupFS fs p = some (Node.file c m) := by
  cases hl : lookupFS fs p with
  | none => simp [isfile, hl] at h
  | some n =>
      cases n with
      | file c m => exact ⟨c, m, rfl⟩
      | dir m => simp [isfile, hl] at h

theorem lookup_none_of_not_exists {fs : List (FPath × Node)} {p : FPath}
    (h : existsFS fs p = false) : lookupFS fs p = none := by
  cases hl : lookupFS fs p with
  | none => rfl
  | some n => simp [existsFS, hl] at h

theorem mem_of_lookupFS {fs : List (FPath × Node)} {p : FPath} {n : Node}
    (h : lookupFS fs p = some n) : (p, n) ∈ fs := by
  induction fs with
  | nil => simp [lookupFS] at h
  | cons e rest ih =>
      obtain ⟨a, b⟩ := e
      by_cases hap : a = p
      · subst hap
        simp [lookupFS] at h
        subst h
        exact List.mem_cons_self _ _
      · simp [lookupFS, hap] at h
        exact List.mem_cons_of_mem _ (ih h)

/-! ### Strict extensions: everything the copier writes under a
destination parent is a strict extension of that parent -/

theorem strictExt_append {d l : FPath} (h : l ≠ []) : StrictExt d (d ++ l) := by
  constructor
  · simp only [List.length_append]
    have : 0 < l.length := List.length_pos.mpr h
    omega
  · exact List.take_left d l

theorem strictExt_single (d : FPath) (b : String) : StrictExt d (d ++ [b]) :=
  strictExt_append (by simp)

theorem strictExt_step {d p : FPath} {b : String}
    (h : StrictExt (d ++ [b]) p) : StrictExt d p := by
  obtain ⟨hlen, htake⟩ := h
  have hlen2 : d.length < p.length := by
    simp only [List.length_append, List.length_singleton] at hlen
    omega
  refine ⟨hlen2, ?_⟩
  have h1 : (p.take (d ++ [b]).length).take d.length = d := by
    rw [htake]
    exact List.take_left d [b]
  have h2 : (p.take (d ++ [b]).length).take d.length = p.take d.length := by
    rw [List.take_take]
    congr 1
    simp only [List.length_append, List.length_singleton]
    omega
  rw [← h2, h1]

theorem not_strictExt_self (d : FPath) : ¬ StrictExt d d :=
  fun h => absurd h.1 (lt_irrefl _)

theorem ne_of_strictExt {d p : FPath} (h : StrictExt d p) : d ≠ p := by
  intro he
  subst he
  exact not_strictExt_self d h

/-! ### Reduction lemmas: the branches of one `_copy` step -/

@[simp]
theorem Res.st_ok (s : St) : (Res.ok s).st = s := rfl

@[simp]
theorem Res.st_err (e : Err) (s : St) : (Res.err e s).st = s := rfl

theorem addDiag_fs (s : St) (d : Diag) : (addDiag s d).fs = s.fs := rfl

theorem copyF_missing (fuel : Nat) (src dst : FPath) (a : Option FPath)
    (s : St) (h : existsFS s.fs src = false) :
    copyF (fuel + 1) src dst a s = Res.ok (addDiag s (Diag.srcMissing src)) := by
  simp [copyF, getOriginal, h]

theorem copyF_file_skip (fuel : Nat) (src dst : FPath) (a : Option FPath)
    (s : St) (h1 : isfile s.fs src = true)
    (h2 : isfile s.fs (dst ++ [basename src]) = true) :
    copyF (fuel + 1) src dst a s =
      Res.ok (addDiag s (Diag.destFileExists (dst ++ [basename src]))) := by
  simp [copyF, getOriginal, exists_of_isfile h1, h1, h2]

theorem copyF_file_copy (fuel : Nat) (src dst : FPath) (a : Option FPath)
    (s : St) (h1 : isfile s.fs src = true)
    (h2 : isfile s.fs (dst ++ [basename src]) = false) :
    copyF (fuel + 1) src dst a s = copy2 src (dst ++ [basename src]) s := by
  simp [copyF, getOriginal, exists_of_isfile h1, h1, h2]

theorem copyF_dir_merge (fuel : Nat) (src dst : FPath) (a : Option FPath)
    (s : St) (h1 : isdir s.fs src = true)
    (h2 : isdir s.fs (dst ++ [basename src]) = true) :
    copyF (fuel + 1) src dst a s =
      seqKids (fun q t => copyF fuel q (dst ++ [basename src]) a t) src
        (listdir s.fs src)
        (addDiag s (Diag.destDirExists (dst ++ [basename src]))) := by
  cases hk : seqKids (fun q t => copyF fuel q (dst ++ [basename src]) a t) src
      (listdir s.fs src)
      (addDiag s (Diag.destDirExists (dst ++ [basename src]))) with
  | ok s3 =>
      simp [copyF, getOriginal, exists_of_isdir h1, isfile_of_isdir h1, h1, h2,
        addDiag]
      simp [addDiag] at hk
      simp [hk]
  | err e s3 =>
      simp [copyF, getOriginal, exists_of_isdir h1, isfile_of_isdir h1, h1, h2,
        addDiag]
      simp [addDiag] at hk
      simp [hk]

theorem copyF_dir_new (fuel : Nat) (src dst : FPath) (a : Option FPath)
    (s : St) (h1 : isdir s.fs src = true)
    (h2 : existsFS s.fs (dst ++ [basename src]) = false)
    (h3 : isdir s.fs dst = true) :
    copyF (fuel + 1) src dst a s =
      (match seqKids (fun q t => copyF fuel q (dst ++ [basename src]) a t) src
          (listdir (setFS s.fs (dst ++ [basename src]) (Node.dir s.clock)) src)
          { s with fs := setFS s.fs (dst ++ [basename src]) (Node.dir s.clock),
                   clock := s.clock + 1 } with
       | Res.ok s3 => copystat src (dst ++ [basename src]) s3
       | Res.err e s3 => Res.err e s3) := by
  simp [copyF, getOriginal, mkdir, exists_of_isdir h1, isfile_of_isdir h1, h1,
    isdir_of_not_exists h2, h2, h3]

theorem copyF_dir_conflict (fuel : Nat) (src dst : FPath) (a : Option FPath)
    (s : St) (h1 : isdir s.fs src = true)
    (h2 : isdir s.fs (dst ++ [basename src]) = false)
    (h3 : existsFS s.fs (dst ++ [basename src]) = true) :
    copyF (fuel + 1) src dst a s = Res.err Err.fileExists s := by
  simp [copyF, getOriginal, mkdir, exists_of_isdir h1, isfile_of_isdir h1, h1,
    h2, h3]

theorem copyF_dir_noparent (fuel : Nat) (src dst : FPath) (a : Option FPath)
    (s : St) (h1 : isdir s.fs src = true)
    (h2 : existsFS s.fs (dst ++ [basename src]) = false)
    (h3 : isdir s.fs dst = false) :
    copyF (fuel + 1) src dst a s = Res.err Err.fileNotFound s := by
  simp [copyF, getOriginal, mkdir, exists_of_isdir h1, isfile_of_isdir h1, h1,
    isdir_of_not_exists h2, h2, h3]

/-! ### Frame lemmas: a copy into destination parent `dst` only writes at
strict extensions of `dst` -/

theorem copy2_frame (sp dst : FPath) (b : String) (s : St) (p : FPath)
    (hp : ¬ StrictExt dst p) :
    lookupFS ((copy2 sp (dst ++ [b]) s).st).fs p = lookupFS s.fs p := by
  have hne1 : ¬ (dst ++ [b] = p) :=
    fun h => hp (h ▸ strictExt_single dst b)
  have hne2 : ¬ (dst ++ [b, basename sp] = p) :=
    fun h => hp (h ▸ strictExt_append (l := [b, basename sp]) (by simp))
  cases hl : lookupFS s.fs sp with
  | none => simp [copy2, hl]
  | some n =>
      cases n with
      | dir m => simp [copy2, hl]
      | file c m =>
          by_cases hd : isdir s.fs (dst ++ [b])
          · by_cases h1 : isdir s.fs (dst ++ [b, basename sp])
            · simp [copy2, hl, hd, h1]
            · by_cases h2 : isfile s.fs (dst ++ [b, basename sp])
              · simp [copy2, hl, hd, h1, h2, lookupFS_setFS, hne2]
              · simp [copy2, hl, hd, h1, h2, lookupFS_setFS, hne2]
          · by_cases h2 : isfile s.fs (dst ++ [b])
            · simp [copy2, hl, hd, h2, lookupFS_setFS, hne1]
            · by_cases h3 : isdir s.fs dst
              · simp [copy2, hl, hd, h2, h3, lookupFS_setFS, hne1]
              · simp [copy2, hl, hd, h2, h3]

theorem mkdir_frame (dst : FPath) (b : String) (s : St) (p : FPath)
    (hp : ¬ StrictExt dst p) :
    lookupFS ((mkdir (dst ++ [b]) s).st).fs p = lookupFS s.fs p := by
  have hne1 : ¬ (dst ++ [b] = p) :=
    fun h => hp (h ▸ strictExt_single dst b)
  by_cases h1 : existsFS s.fs (dst ++ [b])
  · simp [mkdir, h1]
  · by_cases h2 : isdir s.fs dst
    · simp [mkdir, h1, h2, lookupFS_setFS, hne1]
    · simp [mkdir, h1, h2]

theorem copystat_frame (sp dst : FPath) (b : String) (s : St) (p : FPath)
    (hp : ¬ StrictExt dst p) :
    lookupFS ((copystat sp (dst ++ [b]) s).st).fs p = lookupFS s.fs p := by
  have hne1 : ¬ (dst ++ [b] = p) :=
    fun h => hp (h ▸ strictExt_single dst b)
  cases h1 : lookupFS s.fs sp with
  | none => simp [copystat, h1]
  | some nsrc =>
      cases h2 : lookupFS s.fs (dst ++ [b]) with
      | none => simp [copystat, h1, h2]
      | some ndst => simp [copystat, h1, h2, lookupFS_setFS, hne1]

theorem seqKids_frame (cn : FPath) (g : FPath → St → Res)
    (hg : ∀ q t p, ¬ StrictExt cn p →
      lookupFS ((g q t).st).fs p = lookupFS t.fs p) :
    ∀ (names : List String) (srcdir : FPath) (s : St) (p : FPath),
      ¬ StrictExt cn p →
      lookupFS ((seqKids g srcdir names s).st).fs p = lookupFS s.fs p := by
  intro names
  induction names with
  | nil => intro srcdir s p hp; simp [seqKids]
  | cons c rest ih =>
      intro srcdir s p hp
      simp only [seqKids]
      cases hgr : g (srcdir ++ [c]) s with
      | ok s2 =>
          have hstep := hg (srcdir ++ [c]) s p hp
          rw [hgr] at hstep
          simp only [Res.st_ok] at hstep
          rw [ih srcdir s2 p hp, hstep]
      | err e s2 =>
          have hstep := hg (srcdir ++ [c]) s p hp
          rw [hgr] at hstep
          simpa using hstep

theorem copyF_frame :
    ∀ (fuel : Nat) (src dst : FPath) (a : Option FPath) (s : St) (p : FPath),
      ¬ StrictExt dst p →
      lookupFS ((copyF fuel src dst a s).st).fs p = lookupFS s.fs p := by
  intro fuel
  induction fuel with
  | zero => intro src dst a s p hp; simp [copyF]
  | succ fuel ih =>
      intro src dst a s p hp
      have hpcn : ¬ StrictExt (dst ++ [basename src]) p :=
        fun h => hp (strictExt_step h)
      have hkframe : ∀ (names : List String) (srcdir : FPath) (t : St),
          lookupFS ((seqKids
            (fun q u => copyF fuel q (dst ++ [basename src]) a u)
            srcdir names t).st).fs p = lookupFS t.fs p :=
        fun names srcdir t =>
          seqKids_frame (dst ++ [basename src])
            (fun q u => copyF fuel q (dst ++ [basename src]) a u)
            (fun q u p2 hp2 => ih q (dst ++ [basename src]) a u p2 hp2)
            names srcdir t p hpcn
      by_cases hex : existsFS s.fs src
      · by_cases hf : isfile s.fs src
        · by_cases hfc : isfile s.fs (dst ++ [basename src])
          · rw [copyF_file_skip fuel src dst a s hf hfc]
            simp [addDiag]
          · rw [copyF_file_copy fuel src dst a s hf (by simpa using hfc)]
            exact copy2_frame src dst (basename src) s p hp
        · by_cases hd : isdir s.fs src
          · by_cases hdc : isdir s.fs (dst ++ [basename src])
            · rw [copyF_dir_merge fuel src dst a s hd hdc]
              rw [hkframe]
              simp [addDiag]
            · by_cases hec : existsFS s.fs (dst ++ [basename src])
              · rw [copyF_dir_conflict fuel src dst a s hd (by simpa using hdc) hec]
                simp
              · by_cases hpd : isdir s.fs dst
                · rw [copyF_dir_new fuel src dst a s hd
                    (by simpa using hec) hpd]
                  cases hk : seqKids
                      (fun q u => copyF fuel q (dst ++ [basename src]) a u) src
                      (listdir (setFS s.fs (dst ++ [basename src])
                        (Node.dir s.clock)) src)
                      { s with fs := setFS s.fs (dst ++ [basename src])
                                 (Node.dir s.clock),
                               clock := s.clock + 1 } with
                  | ok s3 =>
                      have hmid := hkframe
                        (listdir (setFS s.fs (dst ++ [basename src])
                          (Node.dir s.clock)) src) src
                        { s with fs := setFS s.fs (dst ++ [basename src])
                                   (Node.dir s.clock),
                                 clock := s.clock + 1 }
                      rw [hk] at hmid
                      simp only [Res.st_ok] at hmid
                      have hcs := copystat_frame src dst (basename src) s3 p hp
                      simp only [hk]
                      rw [hcs, hmid]
                      have hne1 : ¬ (dst ++ [basename src] = p) :=
                        fun h => hp (h ▸ strictExt_single dst (basename src))
                      simp [lookupFS_setFS, hne1]
                  | err e s3 =>
                      have hmid := hkframe
                        (listdir (setFS s.fs (dst ++ [basename src])
                          (Node.dir s.clock)) src) src
                        { s with fs := setFS s.fs (dst ++ [basename src])
                                   (Node.dir s.clock),
                                 clock := s.clock + 1 }
                      rw [hk] at hmid
                      simp only [Res.st_err] at hmid
                      simp only [hk]
                      rw [show (Res.err e s3).st = s3 from rfl]
                      rw [hmid]
                      have hne1 : ¬ (dst ++ [basename src] = p) :=
                        fun h => hp (h ▸ strictExt_single dst (basename src))
                      simp [lookupFS_setFS, hne1]
                · rw [copyF_dir_noparent fuel src dst a s hd
                    (by simpa using hec) (by simpa using hpd)]
                  simp
          · -- source exists but is neither file nor directory: impossible
            -- for this node type, but the code path returns the state
            exfalso
            cases hl : lookupFS s.fs src with
            | none => simp [existsFS, hl] at hex
            | some n =>
                cases n with
                | file c m => simp [isfile, hl] at hf
                | dir m => simp [isdir, hl] at hd
      · rw [copyF_missing fuel src dst a s (by simpa using hex)]
        simp [addDiag]

/-! ### Diagnostics are only appended -/

theorem copy2_diags (sp dp : FPath) (s : St) :
    ((copy2 sp dp s).st).diags = s.diags := by
  simp only [copy2]
  repeat first | rfl | split

theorem mkdir_diags (p : FPath) (s : St) :
    ((mkdir p s).st).diags = s.diags := by
  by_cases h1 : existsFS s.fs p
  · simp [mkdir, h1]
  · by_cases h2 : isdir s.fs p.dropLast <;> simp [mkdir, h1, h2]

theorem copystat_diags (sp dp : FPath) (s : St) :
    ((copystat sp dp s).st).diags = s.diags := by
  cases h1 : lookupFS s.fs sp with
  | none => simp [copystat, h1]
  | some nsrc =>
      cases h2 : lookupFS s.fs dp with
      | none => simp [copystat, h1, h2]
      | some ndst => simp [copystat, h1, h2]

theorem seqKids_diags (g : FPath → St → Res)
    (hg : ∀ q t, ∃ u, ((g q t).st).diags = t.diags ++ u) :
    ∀ (names : List String) (srcdir : FPath) (s : St),
      ∃ u, ((seqKids g srcdir names s).st).diags = s.diags ++ u := by
  intro names
  induction names with
  | nil => intro srcdir s; exact ⟨[], by simp [seqKids]⟩
  | cons c rest ih =>
      intro srcdir s
      simp only [seqKids]
      cases hgr : g (srcdir ++ [c]) s with
      | ok s2 =>
          obtain ⟨u1, hu1⟩ := hg (srcdir ++ [c]) s
          rw [hgr] at hu1
          simp only [Res.st_ok] at hu1
          obtain ⟨u2, hu2⟩ := ih srcdir s2
          exact ⟨u1 ++ u2, by rw [hu2, hu1, List.append_assoc]⟩
      | err e s2 =>
          obtain ⟨u1, hu1⟩ := hg (srcdir ++ [c]) s
          rw [hgr] at hu1
          simp only [Res.st_err] at hu1
          exact ⟨u1, by simpa using hu1⟩

theorem copyF_diags :
    ∀ (fuel : Nat) (src dst : FPath) (a : Option FPath) (s : St),
      ∃ u, ((copyF fuel src dst a s).st).diags = s.diags ++ u := by
  intro fuel
  induction fuel with
  | zero => intro src dst a s; exact ⟨[], by simp [copyF]⟩
  | succ fuel ih =>
      intro src dst a s
      have hkids : ∀ (names : List String) (srcdir : FPath) (t : St),
          ∃ u, ((seqKids
            (fun q u2 => copyF fuel q (dst ++ [basename src]) a u2)
            srcdir names t).st).diags = t.diags ++ u :=
        fun names srcdir t =>
          seqKids_diags
            (fun q u2 => copyF fuel q (dst ++ [basename src]) a u2)
            (fun q u2 => ih q (dst ++ [basename src]) a u2)
            names srcdir t
      by_cases hex : existsFS s.fs src
      · by_cases hf : isfile s.fs src
        · by_cases hfc : isfile s.fs (dst ++ [basename src])
          · rw [copyF_file_skip fuel src dst a s hf hfc]
            exact ⟨[Diag.destFileExists (dst ++ [basename src])], rfl⟩
          · rw [copyF_file_copy fuel src dst a s hf (by simpa using hfc)]
            exact ⟨[], by simp [copy2_diags]⟩
        · by_cases hd : isdir s.fs src
          · by_cases hdc : isdir s.fs (dst ++ [basename src])
            · rw [copyF_dir_merge fuel src dst a s hd hdc]
              obtain ⟨u, hu⟩ := hkids (listdir s.fs src) src
                (addDiag s (Diag.destDirExists (dst ++ [basename src])))
              refine ⟨Diag.destDirExists (dst ++ [basename src]) :: u, ?_⟩
              rw [hu]
              simp [addDiag]
            · by_cases hec : existsFS s.fs (dst ++ [basename src])
              · rw [copyF_dir_conflict fuel src dst a s hd
                  (by simpa using hdc) hec]
                exact ⟨[], by simp⟩
              · by_cases hpd : isdir s.fs dst
                · rw [copyF_dir_new fuel src dst a s hd
                    (by simpa using hec) hpd]
                  cases hk : seqKids
                      (fun q u2 => copyF fuel q (dst ++ [basename src]) a u2) src
                      (listdir (setFS s.fs (dst ++ [basename src])
                        (Node.dir s.clock)) src)
                      { s with fs := setFS s.fs (dst ++ [basename src])
                                 (Node.dir s.clock),
                               clock := s.clock + 1 } with
                  | ok s3 =>
                      obtain ⟨u, hu⟩ := hkids
                        (listdir (setFS s.fs (dst ++ [basename src])
                          (Node.dir s.clock)) src) src
                        { s with fs := setFS s.fs (dst ++ [basename src])
                                   (Node.dir s.clock),
                                 clock := s.clock + 1 }
                      rw [hk] at hu
                      simp only [Res.st_ok] at hu
                      refine ⟨u, ?_⟩
                      simp only [hk]
                      rw [copystat_diags]
                      simpa using hu
                  | err e s3 =>
                      obtain ⟨u, hu⟩ := hkids
                        (listdir (setFS s.fs (dst ++ [basename src])
                          (Node.dir s.clock)) src) src
                        { s with fs := setFS s.fs (dst ++ [basename src])
                                   (Node.dir s.clock),
                                 clock := s.clock + 1 }
                      rw [hk] at hu
                      simp only [Res.st_err] at hu
                      refine ⟨u, ?_⟩
                      simp only [hk]
                      simpa using hu
                · rw [copyF_dir_noparent fuel src dst a s hd
                    (by simpa using hec) (by simpa using hpd)]
                  exact ⟨[], by simp⟩
          · exfalso
            cases hl : lookupFS s.fs src with
            | none => simp [existsFS, hl] at hex
            | some n =>
                cases n with
                | file c m => simp [isfile, hl] at hf
                | dir m => simp [isdir, hl] at hd
      · rw [copyF_missing fuel src dst a s (by simpa using hex)]
        exact ⟨[Diag.srcMissing src], rfl⟩

/-! ### Claim theorems -/

/-- Claim C1: the non-destructiveness invariant fails on the code.  With a
source file `s/F` and a destination that already contains a directory
`d/F` holding a pre-existing file `d/F/F`, `_copy` reaches
`shutil.copy2(s/F, d/F)` (the `isfile` guard only checks for a regular
file), `copy2` redirects into the existing directory, and the
pre-existing file `d/F/F` is overwritten: its content and stat change
from `OLD`/3 to `NEW`/5 and the engine performs one overwrite, with no
diagnostic. -/
theorem tmcp_overwrites_preexisting_entry :
    lookupFS [([], Node.dir 0), (["d"], Node.dir 1), (["d", "F"], Node.dir 2),
        (["d", "F", "F"], Node.file "OLD" 3), (["s"], Node.dir 4),
        (["s", "F"], Node.file "NEW" 5)] ["d", "F", "F"]
      = some (Node.file "OLD" 3) ∧
    lookupFS ((tmcp [["s", "F"]] ["d"] none 2
        ⟨[([], Node.dir 0), (["d"], Node.dir 1), (["d", "F"], Node.dir 2),
          (["d", "F", "F"], Node.file "OLD" 3), (["s"], Node.dir 4),
          (["s", "F"], Node.file "NEW" 5)], 100, [], 0⟩).st).fs ["d", "F", "F"]
      = some (Node.file "NEW" 5) ∧
    ((tmcp [["s", "F"]] ["d"] none 2
        ⟨[([], Node.dir 0), (["d"], Node.dir 1), (["d", "F"], Node.dir 2),
          (["d", "F", "F"], Node.file "OLD" 3), (["s"], Node.dir 4),
          (["s", "F"], Node.file "NEW" 5)], 100, [], 0⟩).st).overwrites = 1 ∧
    ((tmcp [["s", "F"]] ["d"] none 2
        ⟨[([], Node.dir 0), (["d"], Node.dir 1), (["d", "F"], Node.dir 2),
          (["d", "F", "F"], Node.file "OLD" 3), (["s"], Node.dir 4),
          (["s", "F"], Node.file "NEW" 5)], 100, [], 0⟩).st).diags = [] := by
  decide

/-- Claim C2: the file-copy skip check fails on the code when the target
path exists as a directory.  With source file `s/F` and an existing
directory `d/F`, the target `d/F` exists but the run emits no
"destination file already exists" diagnostic, does not skip, and instead
writes a new file at `d/F/F` (the `shutil.copy2` into-directory
behavior); the skip happens only when the target is a regular file. -/
theorem tmcp_copies_into_existing_dir_without_diagnostic :
    isdir [([], Node.dir 0), (["d"], Node.dir 1), (["d", "F"], Node.dir 2),
        (["s"], Node.dir 3), (["s", "F"], Node.file "new" 4)] ["d", "F"]
      = true ∧
    ((tmcp [["s", "F"]] ["d"] none 2
        ⟨[([], Node.dir 0), (["d"], Node.dir 1), (["d", "F"], Node.dir 2),
          (["s"], Node.dir 3), (["s", "F"], Node.file "new" 4)],
         100, [], 0⟩).st).diags = [] ∧
    lookupFS ((tmcp [["s", "F"]] ["d"] none 2
        ⟨[([], Node.dir 0), (["d"], Node.dir 1), (["d", "F"], Node.dir 2),
          (["s"], Node.dir 3), (["s", "F"], Node.file "new" 4)],
         100, [], 0⟩).st).fs ["d", "F", "F"]
      = some (Node.file "new" 4) := by
  decide

/-- Claim C7: failure isolation fails on the code.  With two sources
`s/A` (a directory) and `s/B` (a file) and a destination already holding
a plain file `d/A`, the `os.mkdir` call for the first source raises
FileExistsError; no handler exists in `_copy` or in the `for f in src`
loop, so the exception aborts the whole invocation and the second,
perfectly copyable source is never attempted (`d/B` is never created). -/
theorem tmcp_exception_aborts_siblings :
    tmcp [["s", "A"], ["s", "B"]] ["d"] none 2
        ⟨[([], Node.dir 0), (["d"], Node.dir 1), (["d", "A"], Node.file "x" 2),
          (["s"], Node.dir 3), (["s", "A"], Node.dir 4),
          (["s", "B"], Node.file "b" 5)], 100, [], 0⟩
      = Res.err Err.fileExists
          ⟨[([], Node.dir 0), (["d"], Node.dir 1), (["d", "A"], Node.file "x" 2),
            (["s"], Node.dir 3), (["s", "A"], Node.dir 4),
            (["s", "B"], Node.file "b" 5)], 100, [], 0⟩ ∧
    lookupFS ((tmcp [["s", "A"], ["s", "B"]] ["d"] none 2
        ⟨[([], Node.dir 0), (["d"], Node.dir 1), (["d", "A"], Node.file "x" 2),
          (["s"], Node.dir 3), (["s", "A"], Node.dir 4),
          (["s", "B"], Node.file "b" 5)], 100, [], 0⟩).st).fs ["d", "B"]
      = none := by
  decide

/-- Claim C8: idempotence fails on the code in the type-conflict case.
With source file `s/F` and a pre-existing destination directory `d/F`,
the first run creates `d/F/F` with zero overwrites, but the second,
identical run does not skip: it silently overwrites `d/F/F` again
(overwrite count rises from 0 to 1), emitting no skip diagnostic — the
destination tree happens to be unchanged only because the content is
identical. -/
theorem tmcp_second_run_overwrites :
    ((tmcp [["s", "F"]] ["d"] none 2
        ⟨[([], Node.dir 0), (["d"], Node.dir 1), (["d", "F"], Node.dir 2),
          (["s"], Node.dir 3), (["s", "F"], Node.file "new" 4)],
         100, [], 0⟩).st).overwrites = 0 ∧
    ((tmcp [["s", "F"]] ["d"] none 2
        ((tmcp [["s", "F"]] ["d"] none 2
          ⟨[([], Node.dir 0), (["d"], Node.dir 1), (["d", "F"], Node.dir 2),
            (["s"], Node.dir 3), (["s", "F"], Node.file "new" 4)],
           100, [], 0⟩).st)).st).overwrites = 1 ∧
    ((tmcp [["s", "F"]] ["d"] none 2
        ((tmcp [["s", "F"]] ["d"] none 2
          ⟨[([], Node.dir 0), (["d"], Node.dir 1), (["d", "F"], Node.dir 2),
            (["s"], Node.dir 3), (["s", "F"], Node.file "new" 4)],
           100, [], 0⟩).st)).st).fs
      = ((tmcp [["s", "F"]] ["d"] none 2
          ⟨[([], Node.dir 0), (["d"], Node.dir 1), (["d", "F"], Node.dir 2),
            (["s"], Node.dir 3), (["s", "F"], Node.file "new" 4)],
           100, [], 0⟩).st).fs ∧
    ((tmcp [["s", "F"]] ["d"] none 2
        ((tmcp [["s", "F"]] ["d"] none 2
          ⟨[([], Node.dir 0), (["d"], Node.dir 1), (["d", "F"], Node.dir 2),
            (["s"], Node.dir 3), (["s", "F"], Node.file "new" 4)],
           100, [], 0⟩).st)).st).diags = [] := by
  decide

/-- Claim C9: Scenario C fails on the code.  With a source directory
`s/A` whose target `d/A` exists as a plain file, `os.path.isdir(d/A)` is
false, so `_copy` calls `os.mkdir(d/A)`, which raises FileExistsError;
the run crashes (an uncaught exception propagates out of `tmcp`) with no
"already exists" diagnostic emitted. -/
theorem tmcp_dir_onto_file_crashes :
    tmcp [["s", "A"]] ["d"] none 2
        ⟨[([], Node.dir 0), (["d"], Node.dir 1), (["d", "A"], Node.file "x" 2),
          (["s"], Node.dir 3), (["s", "A"], Node.dir 4)], 100, [], 0⟩
      = Res.err Err.fileExists
          ⟨[([], Node.dir 0), (["d"], Node.dir 1), (["d", "A"], Node.file "x" 2),
            (["s"], Node.dir 3), (["s", "A"], Node.dir 4)], 100, [], 0⟩ := by
  decide

/-- Claim C6: a missing source yields exactly one skip diagnostic naming
the missing path, changes nothing else (filesystem, clock, overwrite
count untouched), returns normally, and the enclosing source loop simply
continues with the remaining sources from that state. -/
theorem copy_missing_source_skip :
    (∀ (fuel : Nat) (src dst : FPath) (a : Option FPath) (s : St),
      existsFS s.fs src = false →
      copyF (fuel + 1) src dst a s =
        Res.ok { s with diags := s.diags ++ [Diag.srcMissing src] }) ∧
    (∀ (fuel : Nat) (src : FPath) (rest : List FPath) (dst : FPath)
        (a : Option FPath) (s : St),
      existsFS s.fs src = false →
      foldCopy (src :: rest) dst a (fuel + 1) s =
        foldCopy rest dst a (fuel + 1)
          { s with diags := s.diags ++ [Diag.srcMissing src] }) := by
  constructor
  · intro fuel src dst a s h
    rw [copyF_missing fuel src dst a s h]
    rfl
  · intro fuel src rest dst a s h
    simp only [foldCopy]
    rw [copyF_missing fuel src dst a s h]
    rfl

/-- Witness for C6 at a concrete input: source `x` is absent, the copy
returns normally having only recorded the skip diagnostic. -/
theorem copy_missing_source_skip_witness :
    existsFS [(["d"], Node.dir 0)] ["x"] = false ∧
    copyF 1 ["x"] ["d"] none ⟨[(["d"], Node.dir 0)], 5, [], 0⟩ =
      Res.ok ⟨[(["d"], Node.dir 0)], 5, [Diag.srcMissing ["x"]], 0⟩ := by
  constructor
  · decide
  · have h := copy_missing_source_skip.1 0 ["x"] ["d"] none
      ⟨[(["d"], Node.dir 0)], 5, [], 0⟩ (by decide)
    exact h.trans (by decide)

/-- Claim C3: directory merge semantics.  When the source is a directory
and its target already exists as a directory, one `_copy` step emits the
"destination dir already exists" diagnostic and is exactly the recursion
into every listed child of the source (no `copystat`, no `mkdir`); in
particular the target directory's node (its metadata) is unchanged by
the whole step.  Consequently, copying `s1/M` and then `s2/M` into `d`
merges their children: both `d/M/a` and `d/M/b` exist afterwards and
`d/M` keeps the metadata the first copy gave it. -/
theorem copy_dir_merge_semantics :
    (∀ (fuel : Nat) (src dst : FPath) (a : Option FPath) (s : St),
      isdir s.fs src = true →
      isdir s.fs (dst ++ [basename src]) = true →
      copyF (fuel + 1) src dst a s =
        seqKids (fun q t => copyF fuel q (dst ++ [basename src]) a t) src
          (listdir s.fs src)
          (addDiag s (Diag.destDirExists (dst ++ [basename src]))) ∧
      (∃ u, ((copyF (fuel + 1) src dst a s).st).diags =
        s.diags ++ Diag.destDirExists (dst ++ [basename src]) :: u) ∧
      lookupFS ((copyF (fuel + 1) src dst a s).st).fs (dst ++ [basename src]) =
        lookupFS s.fs (dst ++ [basename src])) ∧
    (lookupFS ((tmcp [["s1", "M"], ["s2", "M"]] ["d"] none 3
        ⟨[([], Node.dir 0), (["d"], Node.dir 1), (["s1"], Node.dir 2),
          (["s1", "M"], Node.dir 3), (["s1", "M", "a"], Node.file "A" 4),
          (["s2"], Node.dir 5), (["s2", "M"], Node.dir 6),
          (["s2", "M", "b"], Node.file "B" 7)], 100, [], 0⟩).st).fs
        ["d", "M", "a"] = some (Node.file "A" 4) ∧
     lookupFS ((tmcp [["s1", "M"], ["s2", "M"]] ["d"] none 3
        ⟨[([], Node.dir 0), (["d"], Node.dir 1), (["s1"], Node.dir 2),
          (["s1", "M"], Node.dir 3), (["s1", "M", "a"], Node.file "A" 4),
          (["s2"], Node.dir 5), (["s2", "M"], Node.dir 6),
          (["s2", "M", "b"], Node.file "B" 7)], 100, [], 0⟩).st).fs
        ["d", "M", "b"] = some (Node.file "B" 7) ∧
     lookupFS ((tmcp [["s1", "M"], ["s2", "M"]] ["d"] none 3
        ⟨[([], Node.dir 0), (["d"], Node.dir 1), (["s1"], Node.dir 2),
          (["s1", "M"], Node.dir 3), (["s1", "M", "a"], Node.file "A" 4),
          (["s2"], Node.dir 5), (["s2", "M"], Node.dir 6),
          (["s2", "M", "b"], Node.file "B" 7)], 100, [], 0⟩).st).fs
        ["d", "M"] = some (Node.dir 3) ∧
     ((tmcp [["s1", "M"], ["s2", "M"]] ["d"] none 3
        ⟨[([], Node.dir 0), (["d"], Node.dir 1), (["s1"], Node.dir 2),
          (["s1", "M"], Node.dir 3), (["s1", "M", "a"], Node.file "A" 4),
          (["s2"], Node.dir 5), (["s2", "M"], Node.dir 6),
          (["s2", "M", "b"], Node.file "B" 7)], 100, [], 0⟩).st).diags
        = [Diag.destDirExists ["d", "M"]]) := by
  constructor
  · intro fuel src dst a s h1 h2
    have hmerge := copyF_dir_merge fuel src dst a s h1 h2
    refine ⟨hmerge, ?_, ?_⟩
    · rw [hmerge]
      obtain ⟨u, hu⟩ := seqKids_diags
        (fun q t => copyF fuel q (dst ++ [basename src]) a t)
        (fun q t => copyF_diags fuel q (dst ++ [basename src]) a t)
        (listdir s.fs src) src
        (addDiag s (Diag.destDirExists (dst ++ [basename src])))
      refine ⟨u, ?_⟩
      rw [hu]
      simp [addDiag]
    · rw [hmerge]
      have hfr := seqKids_frame (dst ++ [basename src])
        (fun q t => copyF fuel q (dst ++ [basename src]) a t)
        (fun q t p hp => copyF_frame fuel q (dst ++ [basename src]) a t p hp)
        (listdir s.fs src) src
        (addDiag s (Diag.destDirExists (dst ++ [basename src])))
        (dst ++ [basename src]) (not_strictExt_self _)
      rw [hfr]
      rfl
  · exact ⟨by decide, by decide, by decide, by decide⟩

/-- Witness for the universally quantified part of C3 at a concrete
input: source directory `s/M` with one child, target `d/M` already a
directory — the step emits the diagnostic and leaves `d/M`'s node
unchanged. -/
theorem copy_dir_merge_semantics_witness :
    isdir [([], Node.dir 0), (["d"], Node.dir 1), (["d", "M"], Node.dir 2),
        (["s"], Node.dir 3), (["s", "M"], Node.dir 6),
        (["s", "M", "a"], Node.file "A" 7)] ["s", "M"] = true ∧
    isdir [([], Node.dir 0), (["d"], Node.dir 1), (["d", "M"], Node.dir 2),
        (["s"], Node.dir 3), (["s", "M"], Node.dir 6),
        (["s", "M", "a"], Node.file "A" 7)] (["d"] ++ [basename ["s", "M"]])
      = true ∧
    (∃ u, ((copyF 2 ["s", "M"] ["d"] none
        ⟨[([], Node.dir 0), (["d"], Node.dir 1), (["d", "M"], Node.dir 2),
          (["s"], Node.dir 3), (["s", "M"], Node.dir 6),
          (["s", "M", "a"], Node.file "A" 7)], 100, [], 0⟩).st).diags =
      [] ++ Diag.destDirExists (["d"] ++ [basename ["s", "M"]]) :: u) ∧
    lookupFS ((copyF 2 ["s", "M"] ["d"] none
        ⟨[([], Node.dir 0), (["d"], Node.dir 1), (["d", "M"], Node.dir 2),
          (["s"], Node.dir 3), (["s", "M"], Node.dir 6),
          (["s", "M", "a"], Node.file "A" 7)], 100, [], 0⟩).st).fs
        (["d"] ++ [basename ["s", "M"]]) =
      lookupFS [([], Node.dir 0), (["d"], Node.dir 1), (["d", "M"], Node.dir 2),
        (["s"], Node.dir 3), (["s", "M"], Node.dir 6),
        (["s", "M", "a"], Node.file "A" 7)] (["d"] ++ [basename ["s", "M"]]) := by
  have h := copy_dir_merge_semantics.1 1 ["s", "M"] ["d"] none
    ⟨[([], Node.dir 0), (["d"], Node.dir 1), (["d", "M"], Node.dir 2),
      (["s"], Node.dir 3), (["s", "M"], Node.dir 6),
      (["s", "M", "a"], Node.file "A" 7)], 100, [], 0⟩
    (by decide) (by decide)
  exact ⟨by decide, by decide, h.2.1, h.2.2⟩

/-- In a well-formed filesystem every proper prefix of a bound path is a
directory. -/
theorem wellFormed_take {fs : List (FPath × Node)}
    (hwf : wellFormed fs = true) {p : FPath} {n : Node}
    (hl : lookupFS fs p = some n) {k : Nat} (hk : k < p.length) :
    isdir fs (p.take k) = true := by
  have hm := mem_of_lookupFS hl
  unfold wellFormed at hwf
  rw [List.all_eq_true] at hwf
  have h2 := hwf (p, n) hm
  rw [List.all_eq_true] at h2
  have h3 := h2 k (List.mem_range.mpr hk)
  simpa using h3

/-- Claim C4: metadata-after-population.  If the source is a directory
with stat value `m` and its target does not yet exist, then any normally
completing `_copy` step leaves the newly created target directory bound
to `Node.dir m` — the source directory's original stat, applied by the
final `copystat` after all children were copied, not the fresh creation
stamp `os.mkdir` gave it.  And a target directory that already existed
(not created by the run) never receives this metadata application: its
node is unchanged by the step. -/
theorem copy_new_dir_metadata_after_population :
    (∀ (fuel : Nat) (src dst : FPath) (a : Option FPath) (s s2 : St),
      wellFormed s.fs = true →
      isdir s.fs src = true →
      existsFS s.fs (dst ++ [basename src]) = false →
      copyF fuel src dst a s = Res.ok s2 →
      ∃ m, lookupFS s.fs src = some (Node.dir m) ∧
        lookupFS s2.fs (dst ++ [basename src]) = some (Node.dir m)) ∧
    (∀ (fuel : Nat) (src dst : FPath) (a : Option FPath) (s : St),
      isdir s.fs src = true →
      isdir s.fs (dst ++ [basename src]) = true →
      lookupFS ((copyF (fuel + 1) src dst a s).st).fs (dst ++ [basename src]) =
        lookupFS s.fs (dst ++ [basename src])) := by
  constructor
  · intro fuel src dst a s s2 hwf h1 h2 hrun
    obtain ⟨m, hm⟩ := lookup_of_isdir h1
    refine ⟨m, hm, ?_⟩
    cases fuel with
    | zero => simp [copyF] at hrun
    | succ fuel =>
        have hdc : isdir s.fs (dst ++ [basename src]) = false :=
          isdir_of_not_exists h2
        by_cases hpd : isdir s.fs dst
        · rw [copyF_dir_new fuel src dst a s h1 h2 hpd] at hrun
          cases hk : seqKids
              (fun q t => copyF fuel q (dst ++ [basename src]) a t) src
              (listdir (setFS s.fs (dst ++ [basename src])
                (Node.dir s.clock)) src)
              { s with fs := setFS s.fs (dst ++ [basename src])
                         (Node.dir s.clock),
                       clock := s.clock + 1 } with
          | err e s3 =>
              rw [hk] at hrun
              exact absurd hrun (by simp)
          | ok s3 =>
              rw [hk] at hrun
              have hcn3 : lookupFS s3.fs (dst ++ [basename src]) =
                  some (Node.dir s.clock) := by
                have hfr := seqKids_frame (dst ++ [basename src])
                  (fun q t => copyF fuel q (dst ++ [basename src]) a t)
                  (fun q t p hp =>
                    copyF_frame fuel q (dst ++ [basename src]) a t p hp)
                  (listdir (setFS s.fs (dst ++ [basename src])
                    (Node.dir s.clock)) src) src
                  { s with fs := setFS s.fs (dst ++ [basename src])
                             (Node.dir s.clock),
                           clock := s.clock + 1 }
                  (dst ++ [basename src]) (not_strictExt_self _)
                rw [hk] at hfr
                simp only [Res.st_ok] at hfr
                rw [hfr]
                simp [lookupFS_setFS]
              have hne_cn_src : ¬ StrictExt (dst ++ [basename src]) src := by
                intro hse
                have hdir : isdir s.fs (dst ++ [basename src]) = true := by
                  have htk := wellFormed_take hwf hm hse.1
                  rwa [hse.2] at htk
                rw [hdir] at hdc
                exact absurd hdc (by simp)
              have hne2 : ¬ (dst ++ [basename src] = src) := by
                intro he
                rw [he, h1] at hdc
                exact absurd hdc (by simp)
              have hsrc3 : lookupFS s3.fs src = some (Node.dir m) := by
                have hfr := seqKids_frame (dst ++ [basename src])
                  (fun q t => copyF fuel q (dst ++ [basename src]) a t)
                  (fun q t p hp =>
                    copyF_frame fuel q (dst ++ [basename src]) a t p hp)
                  (listdir (setFS s.fs (dst ++ [basename src])
                    (Node.dir s.clock)) src) src
                  { s with fs := setFS s.fs (dst ++ [basename src])
                             (Node.dir s.clock),
                           clock := s.clock + 1 }
                  src hne_cn_src
                rw [hk] at hfr
                simp only [Res.st_ok] at hfr
                rw [hfr]
                simp [lookupFS_setFS, hne2, hm]
              simp only [copystat, hsrc3, hcn3, Node.withMeta, Node.meta]
                at hrun
              have hs2 :
                  s2 = { s3 with fs := setFS s3.fs (dst ++ [basename src]) (Node.dir m) } := by
                cases hrun
                rfl
              rw [hs2]
              simp [lookupFS_setFS]
        · rw [copyF_dir_noparent fuel src dst a s h1 h2
            (by simpa using hpd)] at hrun
          exact absurd hrun (by simp)
  · intro fuel src dst a s h1 h2
    rw [copyF_dir_merge fuel src dst a s h1 h2]
    have hfr := seqKids_frame (dst ++ [basename src])
      (fun q t => copyF fuel q (dst ++ [basename src]) a t)
      (fun q t p hp => copyF_frame fuel q (dst ++ [basename src]) a t p hp)
      (listdir s.fs src) src
      (addDiag s (Diag.destDirExists (dst ++ [basename src])))
      (dst ++ [basename src]) (not_strictExt_self _)
    rw [hfr]
    rfl

/-- Witness for C4 at a concrete input: copying directory `s/M` (stat 7)
into `d` creates `d/M` and, after its child is copied, `d/M` carries the
source's stat 7 rather than the creation stamp 100. -/
theorem copy_new_dir_metadata_after_population_witness :
    wellFormed [([], Node.dir 0), (["d"], Node.dir 1), (["s"], Node.dir 2),
        (["s", "M"], Node.dir 7), (["s", "M", "a"], Node.file "A" 8)]
      = true ∧
    isdir [([], Node.dir 0), (["d"], Node.dir 1), (["s"], Node.dir 2),
        (["s", "M"], Node.dir 7), (["s", "M", "a"], Node.file "A" 8)]
        ["s", "M"] = true ∧
    existsFS [([], Node.dir 0), (["d"], Node.dir 1), (["s"], Node.dir 2),
        (["s", "M"], Node.dir 7), (["s", "M", "a"], Node.file "A" 8)]
        (["d"] ++ [basename ["s", "M"]]) = false ∧
    copyF 2 ["s", "M"] ["d"] none
        ⟨[([], Node.dir 0), (["d"], Node.dir 1), (["s"], Node.dir 2),
          (["s", "M"], Node.dir 7), (["s", "M", "a"], Node.file "A" 8)],
         100, [], 0⟩ =
      Res.ok ⟨[([], Node.dir 0), (["d"], Node.dir 1), (["s"], Node.dir 2),
          (["s", "M"], Node.dir 7), (["s", "M", "a"], Node.file "A" 8),
          (["d", "M"], Node.dir 7), (["d", "M", "a"], Node.file "A" 8)],
         102, [], 0⟩ ∧
    (∃ m, lookupFS [([], Node.dir 0), (["d"], Node.dir 1), (["s"], Node.dir 2),
          (["s", "M"], Node.dir 7), (["s", "M", "a"], Node.file "A" 8)]
          ["s", "M"] = some (Node.dir m) ∧
      lookupFS [([], Node.dir 0), (["d"], Node.dir 1), (["s"], Node.dir 2),
          (["s", "M"], Node.dir 7), (["s", "M", "a"], Node.file "A" 8),
          (["d", "M"], Node.dir 7), (["d", "M", "a"], Node.file "A" 8)]
          (["d"] ++ [basename ["s", "M"]]) = some (Node.dir m)) := by
  refine ⟨by decide, by decide, by decide, by decide, ?_⟩
  exact copy_new_dir_metadata_after_population.1 2 ["s", "M"] ["d"] none
    ⟨[([], Node.dir 0), (["d"], Node.dir 1), (["s"], Node.dir 2),
      (["s", "M"], Node.dir 7), (["s", "M", "a"], Node.file "A" 8)],
     100, [], 0⟩
    ⟨[([], Node.dir 0), (["d"], Node.dir 1), (["s"], Node.dir 2),
      (["s", "M"], Node.dir 7), (["s", "M", "a"], Node.file "A" 8),
      (["d", "M"], Node.dir 7), (["d", "M", "a"], Node.file "A" 8)],
     102, [], 0⟩
    (by decide) (by decide) (by decide) (by decide)

/-! ### The archive argument never influences anything -/

theorem seqKids_congr (g1 g2 : FPath → St → Res)
    (h : ∀ q t, g1 q t = g2 q t) :
    ∀ (names : List String) (srcdir : FPath) (s : St),
      seqKids g1 srcdir names s = seqKids g2 srcdir names s := by
  intro names
  induction names with
  | nil => intro srcdir s; rfl
  | cons c rest ih =>
      intro srcdir s
      simp only [seqKids]
      rw [h (srcdir ++ [c]) s]
      cases g2 (srcdir ++ [c]) s with
      | ok s2 => exact ih srcdir s2
      | err e s2 => rfl

theorem copyF_archive_irrel :
    ∀ (fuel : Nat) (src dst : FPath) (a1 a2 : Option FPath) (s : St),
      copyF fuel src dst a1 s = copyF fuel src dst a2 s := by
  intro fuel
  induction fuel with
  | zero => intro src dst a1 a2 s; rfl
  | succ fuel ih =>
      intro src dst a1 a2 s
      by_cases hex : existsFS s.fs src
      · by_cases hf : isfile s.fs src
        · by_cases hfc : isfile s.fs (dst ++ [basename src])
          · rw [copyF_file_skip fuel src dst a1 s hf hfc,
              copyF_file_skip fuel src dst a2 s hf hfc]
          · rw [copyF_file_copy fuel src dst a1 s hf (by simpa using hfc),
              copyF_file_copy fuel src dst a2 s hf (by simpa using hfc)]
        · by_cases hd : isdir s.fs src
          · by_cases hdc : isdir s.fs (dst ++ [basename src])
            · rw [copyF_dir_merge fuel src dst a1 s hd hdc,
                copyF_dir_merge fuel src dst a2 s hd hdc]
              exact seqKids_congr _ _
                (fun q t => ih q (dst ++ [basename src]) a1 a2 t)
                (listdir s.fs src) src
                (addDiag s (Diag.destDirExists (dst ++ [basename src])))
            · by_cases hec : existsFS s.fs (dst ++ [basename src])
              · rw [copyF_dir_conflict fuel src dst a1 s hd
                  (by simpa using hdc) hec,
                  copyF_dir_conflict fuel src dst a2 s hd
                  (by simpa using hdc) hec]
              · by_cases hpd : isdir s.fs dst
                · rw [copyF_dir_new fuel src dst a1 s hd
                    (by simpa using hec) hpd,
                    copyF_dir_new fuel src dst a2 s hd
                    (by simpa using hec) hpd]
                  rw [seqKids_congr
                    (fun q t => copyF fuel q (dst ++ [basename src]) a1 t)
                    (fun q t => copyF fuel q (dst ++ [basename src]) a2 t)
                    (fun q t => ih q (dst ++ [basename src]) a1 a2 t)
                    (listdir (setFS s.fs (dst ++ [basename src])
                      (Node.dir s.clock)) src) src
                    { s with fs := setFS s.fs (dst ++ [basename src])
                               (Node.dir s.clock),
                             clock := s.clock + 1 }]
                · rw [copyF_dir_noparent fuel src dst a1 s hd
                    (by simpa using hec) (by simpa using hpd),
                    copyF_dir_noparent fuel src dst a2 s hd
                    (by simpa using hec) (by simpa using hpd)]
          · exfalso
            cases hl : lookupFS s.fs src with
            | none => simp [existsFS, hl] at hex
            | some n =>
                cases n with
                | file c m => simp [isfile, hl] at hf
                | dir m => simp [isdir, hl] at hd
      · rw [copyF_missing fuel src dst a1 s (by simpa using hex),
          copyF_missing fuel src dst a2 s (by simpa using hex)]

theorem foldCopy_archive_irrel :
    ∀ (srcs : List FPath) (dst : FPath) (a1 a2 : Option FPath) (fuel : Nat)
      (s : St), foldCopy srcs dst a1 fuel s = foldCopy srcs dst a2 fuel s := by
  intro srcs
  induction srcs with
  | nil => intro dst a1 a2 fuel s; rfl
  | cons f rest ih =>
      intro dst a1 a2 fuel s
      simp only [foldCopy]
      rw [copyF_archive_irrel fuel f dst a1 a2 s]
      cases copyF fuel f dst a2 s with
      | ok s2 => exact ih dst a1 a2 fuel s2
      | err e s2 => rfl

theorem tmcpGo_archive_irrel (srcs : List FPath) (dst : FPath)
    (a1 a2 : Option FPath) (fuel : Nat) (s : St) :
    tmcpGo srcs dst a1 fuel s = tmcpGo srcs dst a2 fuel s := by
  unfold tmcpGo
  cases makedirs dst s with
  | ok s1 => exact foldCopy_archive_irrel srcs dst a1 a2 fuel s1
  | err e s1 =>
      cases e with
      | fileExists =>
          by_cases hd : isdir s1.fs dst
          · simp only [hd, if_true]
            exact foldCopy_archive_irrel srcs dst a1 a2 fuel s1
          · simp [hd]
      | isADirectory => rfl
      | fileNotFound => rfl
      | notADirectory => rfl
      | destConflict => rfl
      | badArchive => rfl
      | outOfFuel => rfl

/-- Claim C10: archive noninterference.  The archive argument never
influences the outcome of a run: validation of any explicit archive
succeeds (`_isArchiveDir` accepts every path), auto-detection yields no
archive, source resolution passes an existing path through unchanged,
and two `tmcp` runs differing only in the archive argument return the
same result (same destination tree, diagnostics, and error status). -/
theorem tmcp_archive_noninterference :
    (∀ (srcs : List FPath) (dst : FPath) (a1 a2 : Option FPath) (fuel : Nat)
       (s : St), tmcp srcs dst a1 fuel s = tmcp srcs dst a2 fuel s) ∧
    (∀ a : FPath, isArchiveDir a = true) ∧
    (∀ srcs : List FPath, findArchive srcs = none) ∧
    (∀ (src : FPath) (a : Option FPath) (s : St),
      existsFS s.fs src = true → getOriginal src a s = (some src, s)) := by
  refine ⟨?_, fun a => rfl, fun srcs => rfl, ?_⟩
  · intro srcs dst a1 a2 fuel s
    cases a1 with
    | none =>
        cases a2 with
        | none => rfl
        | some x =>
            simp only [tmcp, isArchiveDir, if_true]
            exact tmcpGo_archive_irrel srcs dst (findArchive srcs) (some x)
              fuel s
    | some y =>
        cases a2 with
        | none =>
            simp only [tmcp, isArchiveDir, if_true]
            exact tmcpGo_archive_irrel srcs dst (some y) (findArchive srcs)
              fuel s
        | some x =>
            simp only [tmcp, isArchiveDir, if_true]
            exact tmcpGo_archive_irrel srcs dst (some y) (some x) fuel s
  · intro src a s h
    simp [getOriginal, h]

/-- Witness for the hypothesis-bearing part of C10 at a concrete input:
an existing source path is passed through unchanged whatever the archive
argument is. -/
theorem tmcp_archive_noninterference_witness :
    existsFS [(["s"], Node.dir 0)] ["s"] = true ∧
    getOriginal ["s"] (some ["arc"]) ⟨[(["s"], Node.dir 0)], 3, [], 0⟩ =
      (some ["s"], ⟨[(["s"], Node.dir 0)], 3, [], 0⟩) :=
  ⟨by decide,
   tmcp_archive_noninterference.2.2.2 ["s"] (some ["arc"])
     ⟨[(["s"], Node.dir 0)], 3, [], 0⟩ (by decide)⟩

/-! ### Characterizing `os.makedirs` on the destination path -/

theorem ne_of_shorter {xs ys : FPath} (h : xs.length < ys.length) :
    ¬ (xs = ys) := by
  intro he
  rw [he] at h
  exact lt_irrefl _ h

theorem isdir_of_lookup_eq {fs1 fs2 : List (FPath × Node)} {p : FPath}
    (h : lookupFS fs1 p = lookupFS fs2 p) : isdir fs1 p = isdir fs2 p := by
  unfold isdir
  rw [h]

theorem existsFS_of_lookup_eq {fs1 fs2 : List (FPath × Node)} {p : FPath}
    (h : lookupFS fs1 p = lookupFS fs2 p) : existsFS fs1 p = existsFS fs2 p := by
  unfold existsFS
  rw [h]

theorem mkdirsGo_exists (rest : List String) :
    ∀ (cur : FPath) (s : St),
      (∀ k, k < rest.length → isdir s.fs (cur ++ rest.take k) = true) →
      existsFS s.fs (cur ++ rest) = true →
      mkdirsGo cur rest s = Res.err Err.fileExists s := by
  induction rest with
  | nil =>
      intro cur s hmid hex
      simp only [mkdirsGo]
      rw [if_pos (by simpa using hex)]
  | cons c rest ih =>
      intro cur s hmid hex
      have h0 : isdir s.fs cur = true := by
        have h1 := hmid 0 (by simp)
        rw [show cur ++ (c :: rest).take 0 = cur from by simp] at h1
        exact h1
      simp only [mkdirsGo]
      rw [if_pos h0]
      apply ih (cur ++ [c]) s
      · intro k hk
        have h1 := hmid (k + 1) (by simpa using Nat.succ_lt_succ hk)
        rw [show cur ++ (c :: rest).take (k + 1) = cur ++ [c] ++ rest.take k
          from by simp] at h1
        exact h1
      · rw [show cur ++ [c] ++ rest = cur ++ (c :: rest) from by simp]
        exact hex

theorem mkdirsGo_ok (rest : List String) :
    ∀ (cur : FPath) (s : St),
      (∀ k, k < rest.length →
        existsFS s.fs (cur ++ rest.take k) = false ∨
          isdir s.fs (cur ++ rest.take k) = true) →
      existsFS s.fs (cur ++ rest) = false →
      ∃ s1, mkdirsGo cur rest s = Res.ok s1 ∧
        (∀ k, k ≤ rest.length → isdir s1.fs (cur ++ rest.take k) = true) ∧
        (∀ p, (∀ k, k ≤ rest.length → p ≠ cur ++ rest.take k) →
          lookupFS s1.fs p = lookupFS s.fs p) ∧
        s1.diags = s.diags ∧ s1.overwrites = s.overwrites := by
  induction rest with
  | nil =>
      intro cur s hmid hex
      have hex' : existsFS s.fs cur = false := by simpa using hex
      refine ⟨{ s with fs := setFS s.fs cur (Node.dir s.clock),
                       clock := s.clock + 1 }, ?_, ?_, ?_, rfl, rfl⟩
      · simp only [mkdirsGo]
        rw [if_neg (by simp [hex'])]
      · intro k hk
        have hk0 : k = 0 := Nat.le_zero.mp hk
        subst hk0
        rw [show cur ++ List.take 0 [] = cur from by simp]
        simp [isdir, lookupFS_setFS]
      · intro p hp
        have hpc : p ≠ cur := by
          have := hp 0 (by simp)
          simpa using this
        rw [lookupFS_setFS]
        rw [if_neg (fun h => hpc h.symm)]
  | cons c rest ih =>
      intro cur s hmid hex
      have hex2 : existsFS s.fs (cur ++ [c] ++ rest) = false := by
        rw [show cur ++ [c] ++ rest = cur ++ (c :: rest) from by simp]
        exact hex
      have h0 := hmid 0 (by simp)
      rw [show cur ++ (c :: rest).take 0 = cur from by simp] at h0
      by_cases hd : isdir s.fs cur
      · have hmid2 : ∀ k, k < rest.length →
            existsFS s.fs (cur ++ [c] ++ rest.take k) = false ∨
              isdir s.fs (cur ++ [c] ++ rest.take k) = true := by
          intro k hk
          have h1 := hmid (k + 1) (by simpa using Nat.succ_lt_succ hk)
          rw [show cur ++ (c :: rest).take (k + 1) = cur ++ [c] ++ rest.take k
            from by simp] at h1
          exact h1
        obtain ⟨s1, hres, hdirs, hframe, hdg, hov⟩ := ih (cur ++ [c]) s hmid2 hex2
        have hnecur : ∀ k2, k2 ≤ rest.length →
            cur ≠ cur ++ [c] ++ rest.take k2 := by
          intro k2 hk2
          apply ne_of_shorter
          simp
        refine ⟨s1, ?_, ?_, ?_, hdg, hov⟩
        · simp only [mkdirsGo]
          rw [if_pos hd]
          exact hres
        · intro k hk
          cases k with
          | zero =>
              rw [show cur ++ (c :: rest).take 0 = cur from by simp]
              rw [isdir_of_lookup_eq (hframe cur hnecur)]
              exact hd
          | succ k2 =>
              rw [show cur ++ (c :: rest).take (k2 + 1) =
                cur ++ [c] ++ rest.take k2 from by simp]
              exact hdirs k2 (by simpa using hk)
        · intro p hp
          apply hframe p
          intro k2 hk2
          have := hp (k2 + 1) (by simpa using Nat.succ_le_succ hk2)
          rw [show cur ++ (c :: rest).take (k2 + 1) =
            cur ++ [c] ++ rest.take k2 from by simp] at this
          exact this
      · have hex0 : existsFS s.fs cur = false := by
          cases h0 with
          | inl h => exact h
          | inr h => exact absurd h hd
        have hlk : ∀ q : FPath, cur.length < q.length →
            lookupFS (setFS s.fs cur (Node.dir s.clock)) q = lookupFS s.fs q := by
          intro q hq
          rw [lookupFS_setFS]
          rw [if_neg (ne_of_shorter hq)]
        have hlen1 : ∀ k : Nat, cur.length < (cur ++ [c] ++ rest.take k).length := by
          intro k
          simp
        have hlen2 : cur.length < (cur ++ [c] ++ rest).length := by simp
        have hmid2 : ∀ k, k < rest.length →
            existsFS (setFS s.fs cur (Node.dir s.clock))
                (cur ++ [c] ++ rest.take k) = false ∨
              isdir (setFS s.fs cur (Node.dir s.clock))
                (cur ++ [c] ++ rest.take k) = true := by
          intro k hk
          have h1 := hmid (k + 1) (by simpa using Nat.succ_lt_succ hk)
          rw [show cur ++ (c :: rest).take (k + 1) = cur ++ [c] ++ rest.take k
            from by simp] at h1
          rw [existsFS_of_lookup_eq (hlk _ (hlen1 k)),
            isdir_of_lookup_eq (hlk _ (hlen1 k))]
          exact h1
      
        have hex2' : existsFS (setFS s.fs cur (Node.dir s.clock))
            (cur ++ [c] ++ rest) = false := by
          rw [existsFS_of_lookup_eq (hlk _ hlen2)]
          exact hex2
        obtain ⟨s1, hres, hdirs, hframe, hdg, hov⟩ :=
          ih (cur ++ [c])
            { s with fs := setFS s.fs cur (Node.dir s.clock),
                     clock := s.clock + 1 }
            hmid2 hex2'
        have hnecur : ∀ k2, k2 ≤ rest.length →
            cur ≠ cur ++ [c] ++ rest.take k2 := by
          intro k2 hk2
          apply ne_of_shorter
          simp
        refine ⟨s1, ?_, ?_, ?_, ?_, ?_⟩
        · simp only [mkdirsGo]
          rw [if_neg hd, if_neg (by simp [hex0])]
          exact hres
        · intro k hk
          cases k with
          | zero =>
              rw [show cur ++ (c :: rest).take 0 = cur from by simp]
              rw [isdir_of_lookup_eq (hframe cur hnecur)]
              simp [isdir, lookupFS_setFS]
          | succ k2 =>
              rw [show cur ++ (c :: rest).take (k2 + 1) =
                cur ++ [c] ++ rest.take k2 from by simp]
              exact hdirs k2 (by simpa using hk)
        · intro p hp
          have hp2 : ∀ k2, k2 ≤ rest.length → p ≠ cur ++ [c] ++ rest.take k2 := by
            intro k2 hk2
            have := hp (k2 + 1) (by simpa using Nat.succ_le_succ hk2)
            rw [show cur ++ (c :: rest).take (k2 + 1) =
              cur ++ [c] ++ rest.take k2 from by simp] at this
            exact this
          rw [hframe p hp2]
          have hpc : p ≠ cur := by
            have := hp 0 (by simp)
            simpa using this
          rw [lookupFS_setFS]
          rw [if_neg (fun h => hpc h.symm)]
        · rw [hdg]
        · rw [hov]

theorem mkdirsGo_conflict (rest : List String) :
    ∀ (cur : FPath) (s : St),
      (∃ k, k ≤ rest.length ∧ existsFS s.fs (cur ++ rest.take k) = true ∧
        isdir s.fs (cur ++ rest.take k) = false) →
      ∃ s1, mkdirsGo cur rest s = Res.err Err.notADirectory s1 ∨
        (mkdirsGo cur rest s = Res.err Err.fileExists s1 ∧
          isdir s1.fs (cur ++ rest) = false) := by
  induction rest with
  | nil =>
      intro cur s hk
      obtain ⟨k, hkle, hex, hnd⟩ := hk
      have hk0 : k = 0 := Nat.le_zero.mp (by simpa using hkle)
      subst hk0
      rw [show cur ++ List.take 0 [] = cur from by simp] at hex hnd
      refine ⟨s, Or.inr ⟨?_, ?_⟩⟩
      · simp only [mkdirsGo]
        rw [if_pos hex]
      · simpa using hnd
  | cons c rest ih =>
      intro cur s hk
      obtain ⟨k, hkle, hex, hnd⟩ := hk
      by_cases hd : isdir s.fs cur
      · cases k with
        | zero =>
            rw [show cur ++ (c :: rest).take 0 = cur from by simp] at hnd
            rw [hd] at hnd
            exact absurd hnd (by simp)
        | succ k2 =>
            rw [show cur ++ (c :: rest).take (k2 + 1) =
              cur ++ [c] ++ rest.take k2 from by simp] at hex hnd
            obtain ⟨s1, hres⟩ := ih (cur ++ [c]) s
              ⟨k2, by simpa using hkle, hex, hnd⟩
            refine ⟨s1, ?_⟩
            have hstep : mkdirsGo cur (c :: rest) s =
                mkdirsGo (cur ++ [c]) rest s := by
              simp only [mkdirsGo]
              rw [if_pos hd]
            rw [hstep]
            rw [show cur ++ (c :: rest) = cur ++ [c] ++ rest from by simp]
            exact hres
      · by_cases hex0 : existsFS s.fs cur
        · refine ⟨s, Or.inl ?_⟩
          simp only [mkdirsGo]
          rw [if_neg hd, if_pos hex0]
        · cases k with
          | zero =>
              rw [show cur ++ (c :: rest).take 0 = cur from by simp] at hex
              rw [hex] at hex0
              exact absurd rfl hex0
          | succ k2 =>
              rw [show cur ++ (c :: rest).take (k2 + 1) =
                cur ++ [c] ++ rest.take k2 from by simp] at hex hnd
              have hlk : ∀ q : FPath, cur.length < q.length →
                  lookupFS (setFS s.fs cur (Node.dir s.clock)) q =
                    lookupFS s.fs q := by
                intro q hq
                rw [lookupFS_setFS]
                rw [if_neg (ne_of_shorter hq)]
              have hlen1 : cur.length < (cur ++ [c] ++ rest.take k2).length := by
                simp
              have hex' : existsFS (setFS s.fs cur (Node.dir s.clock))
                  (cur ++ [c] ++ rest.take k2) = true := by
                rw [existsFS_of_lookup_eq (hlk _ hlen1)]
                exact hex
              have hnd' : isdir (setFS s.fs cur (Node.dir s.clock))
                  (cur ++ [c] ++ rest.take k2) = false := by
                rw [isdir_of_lookup_eq (hlk _ hlen1)]
                exact hnd
              obtain ⟨s1, hres⟩ := ih (cur ++ [c])
                { s with fs := setFS s.fs cur (Node.dir s.clock),
                         clock := s.clock + 1 }
                ⟨k2, by simpa using hkle, hex', hnd'⟩
              refine ⟨s1, ?_⟩
              have hstep : mkdirsGo cur (c :: rest) s =
                  mkdirsGo (cur ++ [c]) rest
                    { s with fs := setFS s.fs cur (Node.dir s.clock),
                             clock := s.clock + 1 } := by
                simp only [mkdirsGo]
                rw [if_neg hd, if_neg (by simp [hex0])]
              rw [hstep]
              rw [show cur ++ (c :: rest) = cur ++ [c] ++ rest from by simp]
              exact hres

/-- Archive handling in `tmcp` reduces to `tmcpGo` with `archiveOf`:
auto-detection for `None`, pass-through for an explicit archive (its
validation always succeeds). -/
theorem tmcp_eq_go (srcs : List FPath) (dst : FPath) (a : Option FPath)
    (fuel : Nat) (s : St) :
    tmcp srcs dst a fuel s = tmcpGo srcs dst (archiveOf srcs a) fuel s := by
  cases a with
  | none => rfl
  | some x => simp [tmcp, archiveOf, isArchiveDir]

/-- Claim C5: destination setup.  (1) If the destination path or one of
its ancestors exists as a non-directory, the whole invocation fails
fatally with the destination-conflict error.  (2) If the destination is
missing and every ancestor is a directory or missing, the copy phase
starts from a state in which the destination and all its ancestors are
directories, nothing else changed, and no diagnostics were printed.
(3) If the destination already is a directory (in a well-formed
filesystem), the run proceeds straight to the copy phase on the
unchanged state. -/
theorem tmcp_destination_setup :
    (∀ (srcs : List FPath) (dst : FPath) (a : Option FPath) (fuel : Nat)
        (s : St),
      (∃ k, k ≤ dst.length ∧ existsFS s.fs (dst.take k) = true ∧
        isdir s.fs (dst.take k) = false) →
      ∃ s1, tmcp srcs dst a fuel s = Res.err Err.destConflict s1) ∧
    (∀ (srcs : List FPath) (dst : FPath) (a : Option FPath) (fuel : Nat)
        (s : St),
      (∀ k, k ≤ dst.length → existsFS s.fs (dst.take k) = false ∨
        isdir s.fs (dst.take k) = true) →
      existsFS s.fs dst = false →
      ∃ s1, tmcp srcs dst a fuel s =
          foldCopy srcs dst (archiveOf srcs a) fuel s1 ∧
        isdir s1.fs dst = true ∧
        (∀ k, k ≤ dst.length → isdir s1.fs (dst.take k) = true) ∧
        (∀ p, (∀ k, k ≤ dst.length → p ≠ dst.take k) →
          lookupFS s1.fs p = lookupFS s.fs p) ∧
        s1.diags = s.diags ∧ s1.overwrites = s.overwrites) ∧
    (∀ (srcs : List FPath) (dst : FPath) (a : Option FPath) (fuel : Nat)
        (s : St),
      wellFormed s.fs = true →
      isdir s.fs dst = true →
      tmcp srcs dst a fuel s = foldCopy srcs dst (archiveOf srcs a) fuel s) := by
  refine ⟨?_, ?_, ?_⟩
  · intro srcs dst a fuel s h
    obtain ⟨k, hk, hex, hnd⟩ := h
    rw [tmcp_eq_go]
    obtain ⟨s1, hres⟩ := mkdirsGo_conflict dst [] s
      ⟨k, by simpa using hk, by simpa using hex, by simpa using hnd⟩
    cases hres with
    | inl h1 =>
        refine ⟨s1, ?_⟩
        unfold tmcpGo makedirs
        rw [h1]
    | inr h1 =>
        obtain ⟨h1, hnd1⟩ := h1
        refine ⟨s1, ?_⟩
        unfold tmcpGo makedirs
        rw [h1]
        simp [show isdir s1.fs dst = false from by simpa using hnd1]
  · intro srcs dst a fuel s hmid hex
    obtain ⟨s1, hres, hdirs, hframe, hdg, hov⟩ := mkdirsGo_ok dst [] s
      (by
        intro k hk
        simpa using hmid k (le_of_lt hk))
      (by simpa using hex)
    refine ⟨s1, ?_, ?_, ?_, ?_, hdg, hov⟩
    · rw [tmcp_eq_go]
      unfold tmcpGo makedirs
      rw [hres]
    · have h2 := hdirs dst.length (le_refl _)
      simpa using h2
    · intro k hk
      simpa using hdirs k hk
    · intro p hp
      apply hframe
      intro k hk
      simpa using hp k hk
  · intro srcs dst a fuel s hwf hd
    obtain ⟨m, hm⟩ := lookup_of_isdir hd
    have hmid : ∀ k, k < dst.length → isdir s.fs ([] ++ dst.take k) = true := by
      intro k hk
      simpa using wellFormed_take hwf hm hk
    have hres := mkdirsGo_exists dst [] s hmid
      (by simpa using exists_of_isdir hd)
    rw [tmcp_eq_go]
    unfold tmcpGo makedirs
    rw [hres]
    simp [hd]

/-- Witness for C5 at a concrete input: the destination path `d` is
occupied by a plain file, and the invocation fails fatally with the
destination-conflict error. -/
theorem tmcp_destination_setup_witness :
    (∃ k, k ≤ (["d"] : FPath).length ∧
      existsFS [([], Node.dir 0), (["d"], Node.file "x" 1), (["s"], Node.dir 2)]
        ((["d"] : FPath).take k) = true ∧
      isdir [([], Node.dir 0), (["d"], Node.file "x" 1), (["s"], Node.dir 2)]
        ((["d"] : FPath).take k) = false) ∧
    (∃ s1, tmcp [["s"]] ["d"] none 1
        ⟨[([], Node.dir 0), (["d"], Node.file "x" 1), (["s"], Node.dir 2)],
         7, [], 0⟩ = Res.err Err.destConflict s1) := by
  constructor
  · exact ⟨1, by decide, by decide, by decide⟩
  · exact tmcp_destination_setup.1 [["s"]] ["d"] none 1
      ⟨[([], Node.dir 0), (["d"], Node.file "x" 1), (["s"], Node.dir 2)],
       7, [], 0⟩
      ⟨1, by decide, by decide, by decide⟩
